import Mathlib

/-!
Verification of the HL7 log finder's bounded scanner.

The definitions below are a shallow embedding of `search_logic` and its
input handling in `message-finder-3.py`: the filesystem is modelled as
explicit data (a root listing of entries, each entry carrying a listing
of files, each file carrying raw bytes), fallible operations are
`Except`, text is `String`/`List Char`, and wall-clock time is a cost
counter threaded through the loop, checked at exactly the places the
script polls its stop flag.
-/

set_option autoImplicit false

namespace HL7Finder

/-! ### Text utilities -/

/-- Occurrence of `t` as a contiguous substring of `s`, the meaning of
the script's `term in hl7_message` test. -/
def listContains (t : List Char) : List Char → Bool
  | [] => t.isEmpty
  | c :: rest => t.isPrefixOf (c :: rest) || listContains t rest

/-- `term in msg` on strings. -/
def substrIn (t s : String) : Bool :=
  listContains t.toList s.toList

/-- `name.endswith(post)`. -/
def strEndsWith (s post : String) : Bool :=
  post.toList.isSuffixOf s.toList

/-- The literal message delimiter `======` used by every variant. -/
def sepChars : List Char := ['=', '=', '=', '=', '=', '=']

/-- Leftmost occurrence search: returns the part before the first
occurrence of `sep` and the part after it, or `none` when `sep` does
not occur.  Mirrors how `str.split(sep)` scans left to right. -/
def findSplit (sep : List Char) : List Char → Option (List Char × List Char)
  | [] => none
  | c :: rest =>
    if sep.isPrefixOf (c :: rest) then some ([], (c :: rest).drop sep.length)
    else
      match findSplit sep rest with
      | some (pre, post) => some (c :: pre, post)
      | none => none

/-- Fuel-bounded splitting loop; the fuel is an upper bound on the
number of chunks, never reached because each step strictly shrinks the
remaining text. -/
def splitLoop (sep : List Char) : Nat → List Char → List (List Char)
  | 0, s => [s]
  | fuel + 1, s =>
    match findSplit sep s with
    | none => [s]
    | some (pre, post) => pre :: splitLoop sep fuel post

/-- `read_data.split('======')` from the script: split the file text on
the literal delimiter, keeping empty chunks, order preserved. -/
def splitMessages (text : String) : List String :=
  (splitLoop sepChars (text.toList.length + 1) text.toList).map
    (fun cs => List.asString cs)

/-- Numeric value of a run of decimal digit characters, the meaning of
`int(folder[:8])` on an all-digit slice. -/
def digitsVal (cs : List Char) : Nat :=
  cs.foldl (fun a c => a * 10 + (c.toNat - 48)) 0

/-! ### Decoding with replacement

`open(file_path, 'r', encoding='utf-8', errors='replace')` decodes the
raw bytes as UTF-8 and substitutes U+FFFD for each maximal invalid
subpart instead of raising.  `decodeAux` is that decoder on byte
values. -/

/-- The replacement marker U+FFFD. -/
def replChar : Char := Char.ofNat 0xFFFD

/-- A UTF-8 continuation byte. -/
def contByte (b : Nat) : Bool := 0x80 ≤ b && b ≤ 0xBF

/-- UTF-8 decoding with replacement of invalid subparts (the behavior
of `errors='replace'`): each invalid start byte, and each maximal
truncated sequence, becomes one U+FFFD, and decoding resumes at the
offending byte.  The fuel argument only bounds the recursion; every
step consumes at least one byte, so fuel equal to the byte count is
never exhausted. -/
def decodeLoop : Nat → List Nat → List Char
  | _, [] => []
  | 0, _ :: _ => []
  | fuel + 1, b :: rest =>
    if b ≤ 0x7F then Char.ofNat b :: decodeLoop fuel rest
    else if 0xC2 ≤ b && b ≤ 0xDF then
      match rest with
      | [] => [replChar]
      | b2 :: rest2 =>
        if contByte b2 then
          Char.ofNat ((b - 0xC0) * 64 + (b2 - 0x80)) :: decodeLoop fuel rest2
        else replChar :: decodeLoop fuel rest
    else if 0xE0 ≤ b && b ≤ 0xEF then
      match rest with
      | [] => [replChar]
      | b2 :: rest2 =>
        if (if b == 0xE0 then 0xA0 else 0x80) ≤ b2 &&
           b2 ≤ (if b == 0xED then 0x9F else 0xBF) then
          match rest2 with
          | [] => [replChar]
          | b3 :: rest3 =>
            if contByte b3 then
              Char.ofNat ((b - 0xE0) * 4096 + (b2 - 0x80) * 64 + (b3 - 0x80)) ::
                decodeLoop fuel rest3
            else replChar :: decodeLoop fuel rest2
        else replChar :: decodeLoop fuel rest
    else if 0xF0 ≤ b && b ≤ 0xF4 then
      match rest with
      | [] => [replChar]
      | b2 :: rest2 =>
        if (if b == 0xF0 then 0x90 else 0x80) ≤ b2 &&
           b2 ≤ (if b == 0xF4 then 0x8F else 0xBF) then
          match rest2 with
          | [] => [replChar]
          | b3 :: rest3 =>
            if contByte b3 then
              match rest3 with
              | [] => [replChar]
              | b4 :: rest4 =>
                if contByte b4 then
                  Char.ofNat ((b - 0xF0) * 262144 + (b2 - 0x80) * 4096 +
                    (b3 - 0x80) * 64 + (b4 - 0x80)) :: decodeLoop fuel rest4
                else replChar :: decodeLoop fuel rest3
            else replChar :: decodeLoop fuel rest2
        else replChar :: decodeLoop fuel rest
    else replChar :: decodeLoop fuel rest

/-- Reading a file's bytes as text, never failing. -/
def decodeReplace (bs : List Nat) : String :=
  List.asString (decodeLoop bs.length bs)

/-! ### Data model -/

/-- Decidable equality of read/listing outcomes. -/
instance instDecEqExcept {α β : Type} [DecidableEq α] [DecidableEq β] :
    DecidableEq (Except α β) := fun x y =>
  match x, y with
  | Except.error a, Except.error b =>
    if h : a = b then Decidable.isTrue (by rw [h])
    else Decidable.isFalse (fun he => by cases he; exact h rfl)
  | Except.error _, Except.ok _ => Decidable.isFalse (fun he => by cases he)
  | Except.ok _, Except.error _ => Decidable.isFalse (fun he => by cases he)
  | Except.ok a, Except.ok b =>
    if h : a = b then Decidable.isTrue (by rw [h])
    else Decidable.isFalse (fun he => by cases he; exact h rfl)

/-- A file as the scanner sees it: a name, a processing cost standing
for the wall-clock time spent opening, reading and matching it, and
the outcome of reading it (raw bytes, or an I/O error message). -/
structure FSFile where
  name : String
  cost : Nat
  data : Except String (List Nat)
deriving DecidableEq

/-- A root directory entry: a name, the cost of listing it, and the
outcome of listing it as a folder of files. -/
structure FSEntry where
  name : String
  cost : Nat
  listing : Except String (List FSFile)
deriving DecidableEq

/-- The filesystem visible to one scan: the outcome of listing the
root directory. -/
structure FileSystem where
  root : Except String (List FSEntry)
deriving DecidableEq

/-- The scan request (spec section 3).  The GUI always supplies both
date bounds, so they are plain integers here. -/
structure SearchRequest where
  searchTerms : List String
  dateLowerExclusive : Int
  dateUpperExclusive : Int
  timeoutBudget : Nat
  rootDirectory : String
deriving DecidableEq

/-- One matched message. -/
structure MessageMatch where
  sourceFile : String
  rawText : String
deriving DecidableEq

/-- The sealed result of a scan.  The matches field is named
`matchesList` because `matches` is a reserved word in Lean. -/
structure ScanResult where
  matchesList : List MessageMatch
  timedOut : Bool
  scanError : Option String
deriving DecidableEq

/-! ### The scanner -/

/-- `os.path.join` on the UNC-style paths the script uses. -/
def joinPath (a b : String) : String := a ++ "\\" ++ b

/-- The date filter on one folder name (`message-finder-3.py` line
202-205): at least 8 characters, first 8 all decimal digits, and the
YYYYMMDD value strictly between the two bounds. -/
def dateKeep (gt lt : Int) (folder : String) : Bool :=
  decide (8 ≤ folder.length) &&
  (folder.toList.take 8).all (fun c => c.isDigit) &&
  decide (gt < (digitsVal (folder.toList.take 8) : Int)) &&
  decide ((digitsVal (folder.toList.take 8) : Int) < lt)

/-- The archive filter (line 201): drop entries whose name ends with
`zip`. -/
def nonArchive (es : List FSEntry) : List FSEntry :=
  es.filter (fun it => !(strEndsWith it.name "zip"))

/-- The candidate folders the loop iterates over: archive filter then
date filter, listing order preserved. -/
def candidateFolders (gt lt : Int) (es : List FSEntry) : List FSEntry :=
  (nonArchive es).filter (fun it => dateKeep gt lt it.name)

/-- `all(term in hl7_message for term in terms)` (line 237). -/
def termsMatch (terms : List String) (msg : String) : Bool :=
  terms.all (fun t => substrIn t msg)

/-- Matches contributed by one decoded file: split on the delimiter,
keep the candidates containing every term, in split order. -/
def fileMatches (terms : List String) (path text : String) : List MessageMatch :=
  ((splitMessages text).filter (fun m => termsMatch terms m)).map
    (fun m => { sourceFile := path, rawText := m })

/-- The inner file loop (lines 221-242).  Threads the elapsed cost;
before opening each file the stop flag is polled (`budget ≤ elapsed`),
and polling it with files remaining sets the timed-out flag.  A file
whose read fails is skipped with a note and the loop continues.
Returns the matches found, the new elapsed cost, and the timed-out
flag. -/
def scanFiles (terms : List String) (dir : String) (budget : Nat) :
    List FSFile → Nat → List MessageMatch × Nat × Bool
  | [], elapsed => ([], elapsed, false)
  | f :: rest, elapsed =>
    if budget ≤ elapsed then ([], elapsed, true)
    else
      match f.data with
      | Except.error _ => scanFiles terms dir budget rest (elapsed + f.cost)
      | Except.ok bs =>
        let r := scanFiles terms dir budget rest (elapsed + f.cost)
        (fileMatches terms (joinPath dir f.name) (decodeReplace bs) ++ r.1, r.2)

/-- The outer folder loop (lines 209-245).  The stop flag is polled
before listing each folder (line 210, setting the timed-out flag on a
hit), a folder whose listing fails is skipped (lines 215-219), and
after the file loop the flag is polled once more (line 244) — breaking
there does NOT set the timed-out flag.  Returns the matches found and
the timed-out flag. -/
def scanFolders (terms : List String) (root : String) (budget : Nat) :
    List FSEntry → Nat → List MessageMatch × Bool
  | [], _ => ([], false)
  | e :: rest, elapsed =>
    if budget ≤ elapsed then ([], true)
    else
      match e.listing with
      | Except.error _ => scanFolders terms root budget rest (elapsed + e.cost)
      | Except.ok files =>
        let r := scanFiles terms (joinPath root e.name) budget files (elapsed + e.cost)
        if r.2.2 then (r.1, true)
        else if budget ≤ r.2.1 then (r.1, false)
        else
          let r2 := scanFolders terms root budget rest r.2.1
          (r.1 ++ r2.1, r2.2)

/-- The whole scan (`search_logic`): list the root (fatal on failure,
lines 192-198), filter candidate folders, run the bounded loop, seal
the result.  Report writing is the external collaborator and is not
part of the result. -/
def scan (req : SearchRequest) (fs : FileSystem) : ScanResult :=
  match fs.root with
  | Except.error e =>
    { matchesList := [], timedOut := false,
      scanError := some ("Network Error: Could not list directory:\n" ++ e) }
  | Except.ok entries =>
    let r := scanFolders req.searchTerms req.rootDirectory req.timeoutBudget
      (candidateFolders req.dateLowerExclusive req.dateUpperExclusive entries) 0
    { matchesList := r.1, timedOut := r.2, scanError := none }

/-! ### Reference forms used to state the claims -/

/-- Total cost of a folder's files. -/
def filesCost (files : List FSFile) : Nat :=
  (files.map FSFile.cost).sum

/-- Total cost of one root entry: its listing plus all its files. -/
def entryCost (e : FSEntry) : Nat :=
  e.cost + match e.listing with
  | Except.ok files => filesCost files
  | Except.error _ => 0

/-- Total cost of a list of root entries. -/
def totalCost (es : List FSEntry) : Nat :=
  (es.map entryCost).sum

/-- All matches of one folder's files, unbounded: listing order, then
split order, read failures contributing nothing. -/
def allFileMatches (terms : List String) (dir : String)
    (files : List FSFile) : List MessageMatch :=
  files.flatMap (fun f =>
    match f.data with
    | Except.error _ => []
    | Except.ok bs => fileMatches terms (joinPath dir f.name) (decodeReplace bs))

/-- All matches of a list of folders, unbounded: folder listing order,
then file order, then split order. -/
def declarativeMatches (terms : List String) (root : String)
    (es : List FSEntry) : List MessageMatch :=
  es.flatMap (fun e =>
    match e.listing with
    | Except.error _ => []
    | Except.ok files => allFileMatches terms (joinPath root e.name) files)

/-! ### Timeout input normalization (`start_search`, lines 128-134) -/

/-- Whitespace for `str.strip()`. -/
def isSpaceChar (c : Char) : Bool :=
  c == ' ' || c == '\t' || c == '\n' || c == '\r' || c.toNat == 11 || c.toNat == 12

/-- `s.strip()`. -/
def stripChars (cs : List Char) : List Char :=
  ((cs.dropWhile isSpaceChar).reverse.dropWhile isSpaceChar).reverse

/-- `int(text)` on the stripped input: an optional sign followed by at
least one decimal digit, otherwise a `ValueError` (`none`). -/
def parsedTimeout (s : String) : Option Int :=
  match stripChars s.toList with
  | '-' :: ds =>
    if ds ≠ [] ∧ ds.all (fun c => c.isDigit) then some (-(digitsVal ds : Int)) else none
  | '+' :: ds =>
    if ds ≠ [] ∧ ds.all (fun c => c.isDigit) then some (digitsVal ds : Int) else none
  | ds =>
    if ds ≠ [] ∧ ds.all (fun c => c.isDigit) then some (digitsVal ds : Int) else none

/-- The effective timeout budget: the parsed value, with any parse
failure or value below 1 replaced by the default 30. -/
def effectiveTimeout (s : String) : Nat :=
  match parsedTimeout s with
  | some v => if v < 1 then 30 else v.toNat
  | none => 30

/-! ### Concrete fixtures used in the closed statements -/

/-- A file whose processing consumes the whole 5-unit budget; its
content is the single byte `A`. -/
def fileA1 : FSFile := { name := "log1.txt", cost := 5, data := Except.ok [65] }

/-- A zero-cost file with content `A`. -/
def fileA2 : FSFile := { name := "log2.txt", cost := 0, data := Except.ok [65] }

/-- First date folder, holding `fileA1`. -/
def entryC1a : FSEntry :=
  { name := "20240102", cost := 0, listing := Except.ok [fileA1] }

/-- Second date folder, holding `fileA2`. -/
def entryC1b : FSEntry :=
  { name := "20240103", cost := 0, listing := Except.ok [fileA2] }

/-- A date folder whose listing fails. -/
def entryBad : FSEntry :=
  { name := "20240104", cost := 0, listing := Except.error "denied" }

/-- The spec's example folder name with a trailing non-digit. -/
def entX : FSEntry := { name := "20240101X", cost := 0, listing := Except.ok [] }

/-- A date-shaped folder name ending in `zip` but not in `.zip`. -/
def entZip : FSEntry :=
  { name := "20240101zip", cost := 0, listing := Except.ok [] }

/-- A file whose bytes contain the invalid UTF-8 byte 0xFF between
`H` and `i`. -/
def fileBad : FSFile :=
  { name := "bad.log", cost := 0, data := Except.ok [72, 255, 105] }

/-- A date folder holding the badly encoded file. -/
def entryC8 : FSEntry :=
  { name := "20240102", cost := 0, listing := Except.ok [fileBad] }

/-- Request with a 5-unit budget, exhausted exactly by `fileA1`. -/
def reqC1 : SearchRequest :=
  { searchTerms := ["A"], dateLowerExclusive := 20240101,
    dateUpperExclusive := 20240199, timeoutBudget := 5,
    rootDirectory := "ROOT" }

/-- Request with a budget larger than any fixture's total cost. -/
def reqBig : SearchRequest :=
  { searchTerms := ["A"], dateLowerExclusive := 20240101,
    dateUpperExclusive := 20240199, timeoutBudget := 30,
    rootDirectory := "ROOT" }

/-- Request whose term `H` is found in the badly encoded file. -/
def reqC8 : SearchRequest :=
  { searchTerms := ["H"], dateLowerExclusive := 20240101,
    dateUpperExclusive := 20240199, timeoutBudget := 30,
    rootDirectory := "ROOT" }

/-! ### Lemmas about the text utilities -/

theorem listContains_iff (t : List Char) :
    ∀ s : List Char, listContains t s = true ↔ t <:+: s
  | [] => by
    simp [listContains, List.isEmpty_iff]
  | c :: rest => by
    rw [listContains, Bool.or_eq_true, List.isPrefixOf_iff_prefix,
      listContains_iff t rest, List.infix_cons_iff]

theorem substrIn_iff (t s : String) :
    substrIn t s = true ↔ t.toList <:+: s.toList := by
  rw [substrIn, listContains_iff]

theorem findSplit_eq_none {sep : List Char} :
    ∀ s : List Char, ¬ sep <:+: s → findSplit sep s = none := by
  intro s
  induction s with
  | nil => intro _; rfl
  | cons c rest ih =>
    intro h
    have hp : sep.isPrefixOf (c :: rest) = false := by
      cases hpb : sep.isPrefixOf (c :: rest)
      · rfl
      · have hpp := List.isPrefixOf_iff_prefix.mp hpb
        exact absurd hpp.isInfix h
    have hr : findSplit sep rest = none := ih (fun hi => h (List.infix_cons hi))
    simp [findSplit, hp, hr]

theorem splitLoop_ne_nil (sep : List Char) (fuel : Nat) (s : List Char) :
    splitLoop sep fuel s ≠ [] := by
  cases fuel with
  | zero => simp [splitLoop]
  | succ n =>
    rw [splitLoop]
    cases h : findSplit sep s with
    | none => simp
    | some pr => cases pr with | mk pre post => simp

theorem asString_toList (s : String) : List.asString s.toList = s := rfl

theorem splitMessages_ne_nil (text : String) : splitMessages text ≠ [] := by
  rw [splitMessages]
  intro h
  exact splitLoop_ne_nil sepChars (text.toList.length + 1) text.toList
    (List.map_eq_nil_iff.mp h)

theorem splitMessages_of_no_delim (text : String)
    (h : ¬ sepChars <:+: text.toList) : splitMessages text = [text] := by
  rw [splitMessages, splitLoop, findSplit_eq_none text.toList h]
  rfl

/-! ### Lemmas about the bounded loops -/

theorem isPrefix_append_both {α : Type} {x y : List α} (z : List α)
    (h : x <+: y) : z ++ x <+: z ++ y := by
  obtain ⟨t, rfl⟩ := h
  exact ⟨t, by rw [List.append_assoc]⟩

theorem isPrefix_append_of {α : Type} {x y : List α} (z : List α)
    (h : x <+: y) : x <+: y ++ z :=
  h.trans ⟨z, rfl⟩

theorem filesCost_cons (f : FSFile) (rest : List FSFile) :
    filesCost (f :: rest) = f.cost + filesCost rest := by
  simp [filesCost]

theorem totalCost_cons (e : FSEntry) (rest : List FSEntry) :
    totalCost (e :: rest) = entryCost e + totalCost rest := by
  simp [totalCost]

theorem allFileMatches_cons_error (terms : List String) (dir : String)
    {f : FSFile} (rest : List FSFile) {msg : String}
    (hd : f.data = Except.error msg) :
    allFileMatches terms dir (f :: rest) = allFileMatches terms dir rest := by
  simp only [allFileMatches, List.flatMap_cons, hd, List.nil_append]

theorem allFileMatches_cons_ok (terms : List String) (dir : String)
    {f : FSFile} (rest : List FSFile) {bs : List Nat}
    (hd : f.data = Except.ok bs) :
    allFileMatches terms dir (f :: rest) =
      fileMatches terms (joinPath dir f.name) (decodeReplace bs) ++
        allFileMatches terms dir rest := by
  simp only [allFileMatches, List.flatMap_cons, hd]

theorem declarativeMatches_cons_error (terms : List String) (root : String)
    {e : FSEntry} (rest : List FSEntry) {msg : String}
    (hl : e.listing = Except.error msg) :
    declarativeMatches terms root (e :: rest) =
      declarativeMatches terms root rest := by
  simp only [declarativeMatches, List.flatMap_cons, hl, List.nil_append]

theorem declarativeMatches_cons_ok (terms : List String) (root : String)
    {e : FSEntry} (rest : List FSEntry) {files : List FSFile}
    (hl : e.listing = Except.ok files) :
    declarativeMatches terms root (e :: rest) =
      allFileMatches terms (joinPath root e.name) files ++
        declarativeMatches terms root rest := by
  simp only [declarativeMatches, List.flatMap_cons, hl]

theorem scanFiles_cons_stop (terms : List String) (dir : String) (budget : Nat)
    (f : FSFile) (rest : List FSFile) (elapsed : Nat) (hb : budget ≤ elapsed) :
    scanFiles terms dir budget (f :: rest) elapsed = ([], elapsed, true) := by
  rw [scanFiles, if_pos hb]

theorem scanFiles_cons_error (terms : List String) (dir : String) (budget : Nat)
    {f : FSFile} (rest : List FSFile) (elapsed : Nat) {msg : String}
    (hb : ¬ budget ≤ elapsed) (hd : f.data = Except.error msg) :
    scanFiles terms dir budget (f :: rest) elapsed =
      scanFiles terms dir budget rest (elapsed + f.cost) := by
  rw [scanFiles, if_neg hb, hd]

theorem scanFiles_cons_ok (terms : List String) (dir : String) (budget : Nat)
    {f : FSFile} (rest : List FSFile) (elapsed : Nat) {bs : List Nat}
    (hb : ¬ budget ≤ elapsed) (hd : f.data = Except.ok bs) :
    scanFiles terms dir budget (f :: rest) elapsed =
      (fileMatches terms (joinPath dir f.name) (decodeReplace bs) ++
        (scanFiles terms dir budget rest (elapsed + f.cost)).1,
       (scanFiles terms dir budget rest (elapsed + f.cost)).2) := by
  rw [scanFiles, if_neg hb, hd]

theorem scanFolders_cons_stop (terms : List String) (root : String)
    (budget : Nat) (e : FSEntry) (rest : List FSEntry) (elapsed : Nat)
    (hb : budget ≤ elapsed) :
    scanFolders terms root budget (e :: rest) elapsed = ([], true) := by
  rw [scanFolders, if_pos hb]

theorem scanFolders_cons_error (terms : List String) (root : String)
    (budget : Nat) {e : FSEntry} (rest : List FSEntry) (elapsed : Nat)
    {msg : String} (hb : ¬ budget ≤ elapsed)
    (hl : e.listing = Except.error msg) :
    scanFolders terms root budget (e :: rest) elapsed =
      scanFolders terms root budget rest (elapsed + e.cost) := by
  rw [scanFolders, if_neg hb, hl]

theorem scanFolders_cons_ok (terms : List String) (root : String)
    (budget : Nat) {e : FSEntry} (rest : List FSEntry) (elapsed : Nat)
    {files : List FSFile} {ms : List MessageMatch} {e2 : Nat} {flag : Bool}
    (hb : ¬ budget ≤ elapsed) (hl : e.listing = Except.ok files)
    (hr : scanFiles terms (joinPath root e.name) budget files (elapsed + e.cost) =
      (ms, e2, flag)) :
    scanFolders terms root budget (e :: rest) elapsed =
      (if flag then (ms, true)
       else if budget ≤ e2 then (ms, false)
       else (ms ++ (scanFolders terms root budget rest e2).1,
             (scanFolders terms root budget rest e2).2)) := by
  rw [scanFolders, if_neg hb, hl]
  simp only [hr]

theorem scanFiles_timeLB (terms : List String) (dir : String) (budget : Nat) :
    ∀ (files : List FSFile) (elapsed : Nat),
      (scanFiles terms dir budget files elapsed).2.2 = true →
      budget ≤ elapsed + filesCost files
  | [], elapsed => by
    simp [scanFiles]
  | f :: rest, elapsed => by
    intro h
    rw [filesCost_cons]
    by_cases hb : budget ≤ elapsed
    · omega
    · cases hd : f.data with
      | error msg =>
        rw [scanFiles_cons_error terms dir budget rest elapsed hb hd] at h
        have := scanFiles_timeLB terms dir budget rest (elapsed + f.cost) h
        omega
      | ok bs =>
        rw [scanFiles_cons_ok terms dir budget rest elapsed hb hd] at h
        have := scanFiles_timeLB terms dir budget rest (elapsed + f.cost) h
        omega

theorem scanFiles_flag_false (terms : List String) (dir : String) (budget : Nat) :
    ∀ (files : List FSFile) (elapsed : Nat),
      (scanFiles terms dir budget files elapsed).2.2 = false →
      scanFiles terms dir budget files elapsed =
        (allFileMatches terms dir files, elapsed + filesCost files, false)
  | [], elapsed => by
    simp [scanFiles, allFileMatches, filesCost]
  | f :: rest, elapsed => by
    intro h
    by_cases hb : budget ≤ elapsed
    · rw [scanFiles_cons_stop terms dir budget f rest elapsed hb] at h
      simp at h
    · cases hd : f.data with
      | error msg =>
        rw [scanFiles_cons_error terms dir budget rest elapsed hb hd] at h ⊢
        rw [scanFiles_flag_false terms dir budget rest (elapsed + f.cost) h,
          allFileMatches_cons_error terms dir rest hd, filesCost_cons,
          ← Nat.add_assoc]
      | ok bs =>
        rw [scanFiles_cons_ok terms dir budget rest elapsed hb hd] at h ⊢
        rw [scanFiles_flag_false terms dir budget rest (elapsed + f.cost) h,
          allFileMatches_cons_ok terms dir rest hd, filesCost_cons,
          ← Nat.add_assoc]

theorem scanFiles_complete (terms : List String) (dir : String) (budget : Nat)
    (files : List FSFile) (elapsed : Nat)
    (h : elapsed + filesCost files < budget) :
    scanFiles terms dir budget files elapsed =
      (allFileMatches terms dir files, elapsed + filesCost files, false) := by
  cases hf : (scanFiles terms dir budget files elapsed).2.2 with
  | false => exact scanFiles_flag_false terms dir budget files elapsed hf
  | true =>
    have := scanFiles_timeLB terms dir budget files elapsed hf
    omega

theorem scanFiles_front (terms : List String) (dir : String) (budget : Nat) :
    ∀ (files : List FSFile) (elapsed : Nat),
      (scanFiles terms dir budget files elapsed).1 <+:
        allFileMatches terms dir files
  | [], elapsed => by simp [scanFiles]
  | f :: rest, elapsed => by
    by_cases hb : budget ≤ elapsed
    · rw [scanFiles_cons_stop terms dir budget f rest elapsed hb]
      exact ⟨_, rfl⟩
    · cases hd : f.data with
      | error msg =>
        rw [scanFiles_cons_error terms dir budget rest elapsed hb hd,
          allFileMatches_cons_error terms dir rest hd]
        exact scanFiles_front terms dir budget rest (elapsed + f.cost)
      | ok bs =>
        rw [scanFiles_cons_ok terms dir budget rest elapsed hb hd,
          allFileMatches_cons_ok terms dir rest hd]
        exact isPrefix_append_both _
          (scanFiles_front terms dir budget rest (elapsed + f.cost))

theorem scanFolders_timeLB (terms : List String) (root : String) (budget : Nat) :
    ∀ (es : List FSEntry) (elapsed : Nat),
      (scanFolders terms root budget es elapsed).2 = true →
      budget ≤ elapsed + totalCost es
  | [], elapsed => by simp [scanFolders]
  | e :: rest, elapsed => by
    intro h
    rw [totalCost_cons]
    by_cases hb : budget ≤ elapsed
    · omega
    · cases hl : e.listing with
      | error msg =>
        rw [scanFolders_cons_error terms root budget rest elapsed hb hl] at h
        have hrec := scanFolders_timeLB terms root budget rest (elapsed + e.cost) h
        have hec : entryCost e = e.cost := by simp [entryCost, hl]
        omega
      | ok files =>
        have hec : entryCost e = e.cost + filesCost files := by
          simp [entryCost, hl]
        rcases hr : scanFiles terms (joinPath root e.name) budget files
          (elapsed + e.cost) with ⟨ms, e2, flag⟩
        rw [scanFolders_cons_ok terms root budget rest elapsed hb hl hr] at h
        cases flag with
        | true =>
          have hlb := scanFiles_timeLB terms (joinPath root e.name) budget files
            (elapsed + e.cost) (by rw [hr])
          omega
        | false =>
          rw [if_neg (by simp)] at h
          by_cases hb2 : budget ≤ e2
          · rw [if_pos hb2] at h
            simp at h
          · rw [if_neg hb2] at h
            have hff := scanFiles_flag_false terms (joinPath root e.name) budget
              files (elapsed + e.cost) (by rw [hr])
            rw [hr] at hff
            simp only [Prod.mk.injEq] at hff
            obtain ⟨-, he2, -⟩ := hff
            have hrec := scanFolders_timeLB terms root budget rest e2 h
            omega

theorem scanFolders_front (terms : List String) (root : String) (budget : Nat) :
    ∀ (es : List FSEntry) (elapsed : Nat),
      (scanFolders terms root budget es elapsed).1 <+:
        declarativeMatches terms root es
  | [], elapsed => by simp [scanFolders, declarativeMatches]
  | e :: rest, elapsed => by
    by_cases hb : budget ≤ elapsed
    · rw [scanFolders_cons_stop terms root budget e rest elapsed hb]
      exact ⟨_, rfl⟩
    · cases hl : e.listing with
      | error msg =>
        rw [scanFolders_cons_error terms root budget rest elapsed hb hl,
          declarativeMatches_cons_error terms root rest hl]
        exact scanFolders_front terms root budget rest (elapsed + e.cost)
      | ok files =>
        rcases hr : scanFiles terms (joinPath root e.name) budget files
          (elapsed + e.cost) with ⟨ms, e2, flag⟩
        rw [scanFolders_cons_ok terms root budget rest elapsed hb hl hr,
          declarativeMatches_cons_ok terms root rest hl]
        have hms : ms <+: allFileMatches terms (joinPath root e.name) files := by
          have := scanFiles_front terms (joinPath root e.name) budget files
            (elapsed + e.cost)
          rw [hr] at this
          exact this
        cases flag with
        | true => exact isPrefix_append_of _ hms
        | false =>
          rw [if_neg (by simp)]
          by_cases hb2 : budget ≤ e2
          · rw [if_pos hb2]
            exact isPrefix_append_of _ hms
          · rw [if_neg hb2]
            have hff := scanFiles_flag_false terms (joinPath root e.name) budget
              files (elapsed + e.cost) (by rw [hr])
            rw [hr] at hff
            simp only [Prod.mk.injEq] at hff
            obtain ⟨hms_eq, -, -⟩ := hff
            rw [hms_eq]
            exact isPrefix_append_both _
              (scanFolders_front terms root budget rest e2)

theorem scanFolders_complete (terms : List String) (root : String)
    (budget : Nat) :
    ∀ (es : List FSEntry) (elapsed : Nat),
      elapsed + totalCost es < budget →
      scanFolders terms root budget es elapsed =
        (declarativeMatches terms root es, false)
  | [], elapsed => by
    intro _
    simp [scanFolders, declarativeMatches]
  | e :: rest, elapsed => by
    intro h
    rw [totalCost_cons] at h
    have hb : ¬ budget ≤ elapsed := by omega
    cases hl : e.listing with
    | error msg =>
      have hec : entryCost e = e.cost := by simp [entryCost, hl]
      rw [scanFolders_cons_error terms root budget rest elapsed hb hl,
        declarativeMatches_cons_error terms root rest hl]
      exact scanFolders_complete terms root budget rest (elapsed + e.cost)
        (by omega)
    | ok files =>
      have hec : entryCost e = e.cost + filesCost files := by
        simp [entryCost, hl]
      have hr := scanFiles_complete terms (joinPath root e.name) budget files
        (elapsed + e.cost) (by omega)
      rw [scanFolders_cons_ok terms root budget rest elapsed hb hl hr]
      rw [if_neg (by simp), if_neg (by omega)]
      rw [scanFolders_complete terms root budget rest
        (elapsed + e.cost + filesCost files) (by omega)]
      rw [declarativeMatches_cons_ok terms root rest hl]

theorem scan_ok_eq (req : SearchRequest) (entries : List FSEntry) :
    scan req { root := Except.ok entries } =
      { matchesList := (scanFolders req.searchTerms req.rootDirectory
          req.timeoutBudget (candidateFolders req.dateLowerExclusive
            req.dateUpperExclusive entries) 0).1,
        timedOut := (scanFolders req.searchTerms req.rootDirectory
          req.timeoutBudget (candidateFolders req.dateLowerExclusive
            req.dateUpperExclusive entries) 0).2,
        scanError := none } := rfl

/-! ### Claim theorems -/

/-- C1 (amended): matches of a bounded scan are a front portion of the
unbounded scan's matches — nothing at or after the cutoff is opened or
contributes; a raised timed-out flag means the budget really was
exhausted by the candidate folders' work; and a budget exceeding the
total work yields the complete match list with the flag down.  (The
original claim's stronger direction — the flag is raised WHENEVER the
budget runs out with folders remaining — fails at the end-of-folder
poll, see the counterexample.) -/
theorem scan_bounded_front (req : SearchRequest) (entries : List FSEntry) :
    (scan req { root := Except.ok entries }).matchesList <+:
      declarativeMatches req.searchTerms req.rootDirectory
        (candidateFolders req.dateLowerExclusive req.dateUpperExclusive entries)
    ∧ ((scan req { root := Except.ok entries }).timedOut = true →
        req.timeoutBudget ≤ totalCost
          (candidateFolders req.dateLowerExclusive req.dateUpperExclusive
            entries))
    ∧ (totalCost (candidateFolders req.dateLowerExclusive
          req.dateUpperExclusive entries) < req.timeoutBudget →
        scan req { root := Except.ok entries } =
          { matchesList := declarativeMatches req.searchTerms req.rootDirectory
              (candidateFolders req.dateLowerExclusive req.dateUpperExclusive
                entries),
            timedOut := false, scanError := none }) := by
  rw [scan_ok_eq]
  refine ⟨scanFolders_front _ _ _ _ 0, ?_, ?_⟩
  · intro h
    have := scanFolders_timeLB req.searchTerms req.rootDirectory
      req.timeoutBudget (candidateFolders req.dateLowerExclusive
        req.dateUpperExclusive entries) 0 h
    omega
  · intro h
    rw [scanFolders_complete req.searchTerms req.rootDirectory
      req.timeoutBudget (candidateFolders req.dateLowerExclusive
        req.dateUpperExclusive entries) 0 (by omega)]

/-- C1 witness: with a budget (30) larger than the fixtures' total
cost (5), the scan returns every match and does not time out. -/
theorem scan_bounded_front_witness :
    scan reqBig { root := Except.ok [entryC1a, entryC1b] } =
      { matchesList :=
          [{ sourceFile := "ROOT\\20240102\\log1.txt", rawText := "A" },
           { sourceFile := "ROOT\\20240103\\log2.txt", rawText := "A" }],
        timedOut := false, scanError := none } :=
  ((scan_bounded_front reqBig [entryC1a, entryC1b]).2.2 (by decide)).trans
    (by decide)

/-- C1 counterexample: the 5-unit budget is exhausted exactly while
processing the last (only) file of the first folder, so the scan breaks
at the end-of-folder poll (line 244) WITHOUT raising the timed-out
flag, although the second folder was never opened: the result keeps
only the first folder's match and reports `timedOut = false`, where the
claim demands `timedOut = true`. -/
theorem scan_timeout_flag_missed :
    scan reqC1 { root := Except.ok [entryC1a, entryC1b] } =
      { matchesList :=
          [{ sourceFile := "ROOT\\20240102\\log1.txt", rawText := "A" }],
        timedOut := false, scanError := none } ∧
    declarativeMatches reqC1.searchTerms reqC1.rootDirectory
      (candidateFolders reqC1.dateLowerExclusive reqC1.dateUpperExclusive
        [entryC1a, entryC1b]) =
      [{ sourceFile := "ROOT\\20240102\\log1.txt", rawText := "A" },
       { sourceFile := "ROOT\\20240103\\log2.txt", rawText := "A" }] :=
  ⟨by decide, by decide⟩

/-- C2: among entries that survive the archive filter, an entry is a
candidate folder exactly when its name has at least 8 characters whose
first 8 are all decimal digits denoting a YYYYMMDD value strictly
between the two bounds; and `abc12345` is excluded by the date filter
for every pair of bounds, with no error. -/
theorem candidateFolders_date_filter :
    (∀ (gt lt : Int) (es : List FSEntry) (e : FSEntry), e ∈ es →
      strEndsWith e.name "zip" = false →
      (e ∈ candidateFolders gt lt es ↔
        8 ≤ e.name.length ∧
        (∀ c ∈ e.name.toList.take 8, c.isDigit = true) ∧
        gt < (digitsVal (e.name.toList.take 8) : Int) ∧
        (digitsVal (e.name.toList.take 8) : Int) < lt)) ∧
    (∀ gt lt : Int, dateKeep gt lt "abc12345" = false) := by
  constructor
  · intro gt lt es e hmem hzip
    rw [candidateFolders, List.mem_filter, nonArchive, List.mem_filter]
    simp [hmem, hzip, dateKeep, List.all_eq_true, and_assoc]
  · intro gt lt
    rw [dateKeep]
    rw [show ("abc12345".toList.take 8).all (fun c => c.isDigit) = false from
      by decide]
    simp

/-- C2 witness: `20240101X` is a candidate for bounds (20231231,
20240102) and not for (20240101, 20240102) nor (20231231, 20240101). -/
theorem candidateFolders_date_filter_witness :
    entX ∈ candidateFolders 20231231 20240102 [entX] ∧
    entX ∉ candidateFolders 20240101 20240102 [entX] ∧
    entX ∉ candidateFolders 20231231 20240101 [entX] := by
  refine ⟨?_, by decide, by decide⟩
  exact (candidateFolders_date_filter.1 20231231 20240102 [entX] entX
    (by simp) (by decide)).mpr (by decide)

/-- C3 (amended): among the root entries, an entry is excluded by the
archive filter exactly when its name ends with the three characters
`zip` — a superset of the claimed `.zip` suffix; the survivors proceed
to the date filter. -/
theorem nonArchive_excludes_zip (es : List FSEntry) (e : FSEntry)
    (hmem : e ∈ es) :
    e ∉ nonArchive es ↔ strEndsWith e.name "zip" = true := by
  rw [nonArchive, List.mem_filter]
  simp [hmem]

/-- C3 witness: the entry named `20240101zip` is excluded by the
archive filter. -/
theorem nonArchive_excludes_zip_witness : entZip ∉ nonArchive [entZip] :=
  (nonArchive_excludes_zip [entZip] entZip (by simp)).mpr (by decide)

/-- C3 counterexample: `20240101zip` does not end in `.zip`, and its
date passes the (20231231, 20240102) bounds, yet the code's
`endswith('zip')` test excludes it from the candidates — so exclusion
is not equivalent to ending in `.zip`. -/
theorem zip_suffix_counterexample :
    strEndsWith "20240101zip" ".zip" = false ∧
    nonArchive [entZip] = [] ∧
    dateKeep 20231231 20240102 "20240101zip" = true :=
  ⟨by decide, by decide, by decide⟩

/-- C4: for a non-empty term list, a candidate from the delimiter
split becomes a MessageMatch of its file exactly when every term
occurs as a contiguous substring of it. -/
theorem termsMatch_AND_semantics :
    ∀ (terms : List String) (path text : String), terms ≠ [] →
      ∀ msg ∈ splitMessages text,
        (({ sourceFile := path, rawText := msg } : MessageMatch) ∈
            fileMatches terms path text ↔
          ∀ t ∈ terms, t.toList <:+: msg.toList) := by
  intro terms path text _ msg hmsg
  rw [fileMatches]
  simp only [List.mem_map, List.mem_filter, MessageMatch.mk.injEq]
  constructor
  · rintro ⟨m, ⟨-, hmatch_⟩, -, rfl⟩
    intro t ht
    have := (List.all_eq_true.mp hmatch_) t ht
    exact (substrIn_iff t m).mp this
  · intro hall
    refine ⟨msg, ⟨hmsg, ?_⟩, trivial, rfl⟩
    exact List.all_eq_true.mpr (fun t ht => (substrIn_iff t msg).mpr (hall t ht))

/-- C4 witness: terms 9999 and THUY both occur in the first candidate
(match) and only 9999 occurs in the second (no match). -/
theorem termsMatch_AND_semantics_witness :
    (({ sourceFile := "p", rawText := "xx9999yyTHUYzz" } : MessageMatch) ∈
      fileMatches ["9999", "THUY"] "p" "xx9999yyTHUYzz") ∧
    termsMatch ["9999", "THUY"] "xx9999yy" = false := by
  constructor
  · exact (termsMatch_AND_semantics ["9999", "THUY"] "p" "xx9999yyTHUYzz"
      (by decide) "xx9999yyTHUYzz" (by decide)).mpr (by decide)
  · decide

/-- C5: the file text is split on the literal six-character delimiter
with order preserved — `A======B======C` gives exactly A, B, C — and,
whenever the budget covers the whole scan, the match list equals the
folder-by-folder, file-by-file, split-order concatenation. -/
theorem split_and_order :
    splitMessages "A======B======C" = ["A", "B", "C"] ∧
    ∀ (req : SearchRequest) (entries : List FSEntry),
      totalCost (candidateFolders req.dateLowerExclusive
        req.dateUpperExclusive entries) < req.timeoutBudget →
      (scan req { root := Except.ok entries }).matchesList =
        declarativeMatches req.searchTerms req.rootDirectory
          (candidateFolders req.dateLowerExclusive req.dateUpperExclusive
            entries) := by
  constructor
  · decide
  · intro req entries h
    rw [scan_ok_eq]
    rw [scanFolders_complete req.searchTerms req.rootDirectory
      req.timeoutBudget (candidateFolders req.dateLowerExclusive
        req.dateUpperExclusive entries) 0 (by omega)]

/-- C5 witness: a single-folder fixture scanned with ample budget
yields its one match. -/
theorem split_and_order_witness :
    (scan reqBig { root := Except.ok [entryC1a] }).matchesList =
      [{ sourceFile := "ROOT\\20240102\\log1.txt", rawText := "A" }] :=
  (split_and_order.2 reqBig [entryC1a] (by decide)).trans (by decide)

/-- C6: a failed root listing yields the network error, an empty match
list and no timed-out flag, with no folder or file processed; and this
is the only aborting failure — whenever the root listing succeeds, the
scan's error slot is empty. -/
theorem scan_root_failure_fatal :
    (∀ (req : SearchRequest) (msg : String),
      scan req { root := Except.error msg } =
        { matchesList := [], timedOut := false,
          scanError :=
            some ("Network Error: Could not list directory:\n" ++ msg) }) ∧
    (∀ (req : SearchRequest) (entries : List FSEntry),
      (scan req { root := Except.ok entries }).scanError = none) :=
  ⟨fun _ _ => rfl, fun _ _ => rfl⟩

/-- C7: a folder whose listing fails, and a file whose read fails, are
each skipped and iteration continues with the next item at the same
point of the loop, so matches collected elsewhere are untouched. -/
theorem scan_skips_non_root_failures :
    (∀ (terms : List String) (root : String) (budget : Nat) (e : FSEntry)
        (rest : List FSEntry) (elapsed : Nat) (msg : String),
      ¬ budget ≤ elapsed → e.listing = Except.error msg →
      scanFolders terms root budget (e :: rest) elapsed =
        scanFolders terms root budget rest (elapsed + e.cost)) ∧
    (∀ (terms : List String) (dir : String) (budget : Nat) (f : FSFile)
        (rest : List FSFile) (elapsed : Nat) (msg : String),
      ¬ budget ≤ elapsed → f.data = Except.error msg →
      scanFiles terms dir budget (f :: rest) elapsed =
        scanFiles terms dir budget rest (elapsed + f.cost)) :=
  ⟨fun terms root budget _ rest elapsed _ hb hl =>
      scanFolders_cons_error terms root budget rest elapsed hb hl,
   fun terms dir budget _ rest elapsed _ hb hd =>
      scanFiles_cons_error terms dir budget rest elapsed hb hd⟩

/-- C7 witness: a scan whose first folder fails to list still returns
the later folder's match. -/
theorem scan_skips_non_root_failures_witness :
    scanFolders ["A"] "ROOT" 30 [entryBad, entryC1b] 0 =
      scanFolders ["A"] "ROOT" 30 [entryC1b] (0 + entryBad.cost) ∧
    (scanFolders ["A"] "ROOT" 30 [entryBad, entryC1b] 0).1 =
      [{ sourceFile := "ROOT\\20240103\\log2.txt", rawText := "A" }] :=
  ⟨scan_skips_non_root_failures.1 ["A"] "ROOT" 30 entryBad [entryC1b] 0
      "denied" (by decide) (by decide),
   by decide⟩

/-- C8: decoding never fails — a scan over any successfully listed
root, whatever bytes its files hold, has an empty error slot — and the
invalid byte 0xFF inside `H..i` is replaced by the U+FFFD marker in the
match's raw text. -/
theorem decode_fallback :
    (∀ (req : SearchRequest) (entries : List FSEntry),
      (scan req { root := Except.ok entries }).scanError = none) ∧
    decodeReplace [72, 255, 105] = "H\uFFFDi" ∧
    scan reqC8 { root := Except.ok [entryC8] } =
      { matchesList :=
          [{ sourceFile := "ROOT\\20240102\\bad.log", rawText := "H\uFFFDi" }],
        timedOut := false, scanError := none } :=
  ⟨fun _ _ => rfl, by decide, by decide⟩

/-- C9: the effective timeout is always at least 1 second: a parsed
value of at least 1 is kept, a parsed value below 1 (zero or negative)
falls back to 30, and unparsable input (empty or non-numeric) falls
back to 30. -/
theorem effectiveTimeout_normalization :
    ∀ s : String,
      1 ≤ effectiveTimeout s ∧
      (∀ v : Int, parsedTimeout s = some v → 1 ≤ v →
        (effectiveTimeout s : Int) = v) ∧
      (∀ v : Int, parsedTimeout s = some v → v < 1 →
        effectiveTimeout s = 30) ∧
      (parsedTimeout s = none → effectiveTimeout s = 30) := by
  intro s
  cases hp : parsedTimeout s with
  | none =>
    have he : effectiveTimeout s = 30 := by
      simp only [effectiveTimeout, hp]
    refine ⟨by omega, ?_, ?_, fun _ => he⟩
    · intro v hv
      cases hv
    · intro v hv
      cases hv
  | some v =>
    have he : effectiveTimeout s = if v < 1 then 30 else v.toNat := by
      simp only [effectiveTimeout, hp]
    by_cases hv1 : v < 1
    · rw [if_pos hv1] at he
      refine ⟨by omega, ?_, ?_, ?_⟩
      · intro v' hv' h1
        cases hv'
        omega
      · intro v' hv' _
        exact he
      · intro hn
        cases hn
    · rw [if_neg hv1] at he
      refine ⟨by omega, ?_, ?_, ?_⟩
      · intro v' hv' _
        cases hv'
        omega
      · intro v' hv' hlt
        cases hv'
        omega
      · intro hn
        cases hn

/-- C9 witness: 45 is kept; 0, -7, non-numeric and empty input all
fall back to 30. -/
theorem effectiveTimeout_normalization_witness :
    effectiveTimeout "45" = 45 ∧ effectiveTimeout "0" = 30 ∧
    effectiveTimeout "-7" = 30 ∧ effectiveTimeout "abc" = 30 ∧
    effectiveTimeout "" = 30 := by
  refine ⟨?_, ?_, ?_, ?_, ?_⟩
  · have h := (effectiveTimeout_normalization "45").2.1 45 (by decide)
      (by decide)
    omega
  · exact (effectiveTimeout_normalization "0").2.2.1 0 (by decide) (by decide)
  · exact (effectiveTimeout_normalization "-7").2.2.1 (-7) (by decide)
      (by decide)
  · exact (effectiveTimeout_normalization "abc").2.2.2 (by decide)
  · exact (effectiveTimeout_normalization "").2.2.2 (by decide)

/-- C10: splitting any file text on the delimiter yields a non-empty
candidate list; a text without the delimiter is the single candidate
equal to the whole content, and the empty text gives the single empty
candidate — no first segment is dropped anywhere. -/
theorem split_total_nonempty :
    (∀ text : String, splitMessages text ≠ [] ∧
      (¬ sepChars <:+: text.toList → splitMessages text = [text])) ∧
    splitMessages "" = [""] :=
  ⟨fun text => ⟨splitMessages_ne_nil text, splitMessages_of_no_delim text⟩,
   by decide⟩

/-- C10 witness: a delimiter-free log is tested whole as one
candidate. -/
theorem split_total_nonempty_witness :
    splitMessages "MSH|123" = ["MSH|123"] :=
  (split_total_nonempty.1 "MSH|123").2 (by decide)

end HL7Finder
